import Mathlib

/-
Shallow embedding, in Lean 4, of the three Python modules of this repository:

  * interpreter/terminal_interface/utils/find_image_path.py
  * interpreter/terminal_interface/utils/get_config.py
  * interpreter/terminal_interface/components/base_block.py

Conventions of the embedding:

  * Strings are Lean `String` (a list of characters), matching Python `str`
    for the ASCII texts the claims are about.
  * The filesystem is explicit.  For the image-path finder, which only ever
    asks `os.path.exists`, the state is the list of existing paths.  For the
    config loader, which reads, creates and copies files and creates
    directories, the state is a record of files (path and content pairs,
    most recent first, so a prepend is an overwrite) and directories.
  * Fallible operations (a file copy whose source is missing, opening a path
    that holds no readable file) return `Option`; `none` is a raised
    OS-level error.
  * The fixed regular expression of find_image_path.py is embedded as a
    direct recursive matcher with exactly the semantics of the Python
    pattern on the Python engine: at each start position the two
    alternatives are tried (they are mutually exclusive: one starts with a
    letter, the other with a slash), the body `[^:\n]*?` is reluctant, so
    the shortest body followed by a literal dot and one of the six literal
    extension spellings wins, and scanning resumes after the end of each
    match (non-overlapping matches, left to right).
-/

/-! Image path finder: the regular-expression scan

The Python source (find_image_path.py, lines 29-33):

  pattern = ([A-Za-z]:\\[^:\n]*?\.(png|jpg|jpeg|PNG|JPG|JPEG))
            |(/[^:\n]*?\.(png|jpg|jpeg|PNG|JPG|JPEG))
  matches = [match.group() for match in re.finditer(pattern, text) if match.group()]
  matches += [match.replace(backslash, empty) for match in matches if match]
  existing_paths = [match for match in matches if os.path.exists(match)]
  return max(existing_paths, key=len) if existing_paths else None
-/

/-- The six extension alternatives of the pattern, in the order of the
Python alternation `png|jpg|jpeg|PNG|JPG|JPEG`. -/
def extAlts : List (List Char) :=
  [['p','n','g'], ['j','p','g'], ['j','p','e','g'],
   ['P','N','G'], ['J','P','G'], ['J','P','E','G']]

/-- Match `(png|jpg|jpeg|PNG|JPG|JPEG)` at the front of the input, returning
the consumed extension and the rest.  The six alternatives are mutually
exclusive, so first-alternative-wins agrees with any order. -/
def matchExt : List Char → Option (List Char × List Char)
  | 'p' :: 'n' :: 'g' :: r => some (['p','n','g'], r)
  | 'j' :: 'p' :: 'g' :: r => some (['j','p','g'], r)
  | 'j' :: 'p' :: 'e' :: 'g' :: r => some (['j','p','e','g'], r)
  | 'P' :: 'N' :: 'G' :: r => some (['P','N','G'], r)
  | 'J' :: 'P' :: 'G' :: r => some (['J','P','G'], r)
  | 'J' :: 'P' :: 'E' :: 'G' :: r => some (['J','P','E','G'], r)
  | _ => none

/-- Match the reluctant tail `[^:\n]*?\.(png|jpg|jpeg|PNG|JPG|JPEG)`:
the shortest body of characters other than `:` and newline followed by a
literal dot and an extension.  Returns the consumed text and the rest.
At each position the engine first tries to finish with `\.` plus an
extension (reluctant quantifier), and only if that fails extends the body
by one admissible character. -/
def lazyDotExt : List Char → Option (List Char × List Char)
  | [] => none
  | c :: cs =>
    match (if c = '.' then matchExt cs else none) with
    | some (e, r) => some (c :: e, r)
    | none =>
      if c = ':' ∨ c = '\n' then none
      else
        match lazyDotExt cs with
        | some (m, r) => some (c :: m, r)
        | none => none

/-- Try the whole pattern at the current position: either the Windows
alternative `[A-Za-z]:\\` followed by the reluctant tail, or the Unix
alternative `/` followed by the reluctant tail.  The two alternatives can
never both apply (a head `/` is not a letter), so trying the slash case
first agrees with the Python alternation order. -/
def matchAt : List Char → Option (List Char × List Char)
  | [] => none
  | c :: cs =>
    if c = '/' then
      match lazyDotExt cs with
      | some (m, r) => some (c :: m, r)
      | none => none
    else
      match cs with
      | ':' :: '\\' :: cs2 =>
        if c.isAlpha then
          match lazyDotExt cs2 with
          | some (m, r) => some (c :: ':' :: '\\' :: m, r)
          | none => none
        else none
      | _ => none

/-- Model of `re.finditer`: scan left to right; at a match, emit it and resume after
its end; otherwise advance one character.  Fuel-indexed for structural
recursion; every step consumes at least one character of the remaining
input (a match is nonempty and scanning otherwise advances by one), so
fuel equal to the input length never runs out. -/
def findMatchesAux : Nat → List Char → List (List Char)
  | 0, _ => []
  | _ + 1, [] => []
  | fuel + 1, c :: cs =>
    match matchAt (c :: cs) with
    | some (m, r) => m :: findMatchesAux fuel r
    | none => findMatchesAux fuel cs

/-- All (non-overlapping, leftmost) matches of the pattern in the text. -/
def findMatches (cs : List Char) : List (List Char) :=
  findMatchesAux cs.length cs

/-- Python `match.replace(backslash, empty)`: delete every backslash. -/
def stripBackslashes (s : String) : String :=
  String.mk (s.data.filter (fun c => c ≠ '\\'))

/-- The list `matches` of the source after line 30: the raw regex matches,
in scan order, keeping only nonempty ones (`if match.group()`). -/
def rawMatches (text : String) : List String :=
  ((findMatches text.data).map String.mk).filter (fun s => s ≠ "")

/-- The list `matches` of the source after line 31: the raw matches followed
by the backslash-stripped variant of each (nonempty) raw match, in the same
order. -/
def imageCandidates (text : String) : List String :=
  rawMatches text ++ ((rawMatches text).filter (fun s => s ≠ "")).map stripBackslashes

/-- Membership of a string in a list of strings, the model of
`os.path.exists` against an explicit list `fs` of existing paths. -/
def memStr : List String → String → Bool
  | [], _ => false
  | d :: ds, p => if d = p then true else memStr ds p

/-- The reduction step of Python `max(existing_paths, key=len)`: keep the
current best unless the next element is strictly longer. -/
def pickLonger (acc y : String) : String :=
  if acc.length < y.length then y else acc

/-- Model of `find_image_path(text)` against filesystem state `fs` (the list of
paths that exist at call time): the candidates that exist, reduced by
`max(..., key=len)`, or `none` when no candidate exists. -/
def find_image_path (fs : List String) (text : String) : Option String :=
  match (imageCandidates text).filter (fun m => memStr fs m) with
  | [] => none
  | x :: xs => some (xs.foldl pickLonger x)

/-! Config loader: filesystem model and POSIX path helpers

The Python source (get_config.py).  The collaborators `os.path.join`,
`os.path.dirname`, `os.path.exists`, `os.makedirs` and `shutil.copy` are
modelled with POSIX path semantics on an explicit filesystem state.  The
external collaborator `get_storage_path()` (local_storage_path.py, not part
of this fragment) is a pure no-argument function and is carried as the
field `storagePath` of the environment, alongside the working directory
(`os.getcwd()`) and the directory holding the module (`os.path.dirname(
os.path.abspath(__file__))`). -/

/-- The ambient process environment of get_config.py: the per-user storage
directory returned by `get_storage_path()`, the current working directory,
and the absolute directory of the module file itself. -/
structure Env where
  storagePath : String
  cwd : String
  moduleDir : String
deriving DecidableEq

/-- Explicit filesystem state: regular files as path-content pairs (most
recent first, so a prepended pair shadows, i.e. overwrites, an older one)
and the set of directories.  Intermediate ancestor directories are not
tracked separately: no operation of the source observes them. -/
structure FS where
  files : List (String × String)
  dirs : List String
deriving DecidableEq

/-- Read the content of the regular file at `p`, `none` if absent.  Models
a successful `open(p).read()`. -/
def lookupFile : List (String × String) → String → Option String
  | [], _ => none
  | f :: rest, p => if f.1 = p then some f.2 else lookupFile rest p

def FS.readFile (fs : FS) (p : String) : Option String :=
  lookupFile fs.files p

/-- Model of `os.path.exists(p)`: true for a regular file or a directory. -/
def FS.existsPath (fs : FS) (p : String) : Bool :=
  (fs.readFile p).isSome || memStr fs.dirs p

/-- Model of `os.path.join(a, b)` with POSIX semantics: an absolute second component
discards the first; otherwise the components are glued with a single
separator. -/
def joinPath (a b : String) : String :=
  if b.data.head? = some '/' then b
  else if a = "" then b
  else if a.data.getLast? = some '/' then a ++ b
  else a ++ "/" ++ b

/-- Model of `os.path.dirname(p)` with POSIX semantics: the prefix of `p` up to and
including its last slash, with trailing slashes then stripped unless the
prefix consists of slashes only. -/
def dirname (p : String) : String :=
  let head := (p.data.reverse.dropWhile (fun c => c ≠ '/')).reverse
  if head ≠ [] ∧ ¬ (head.all (fun c => c = '/')) then
    String.mk (head.reverse.dropWhile (fun c => c = '/')).reverse
  else
    String.mk head

/-- Model of `os.makedirs(d, exist_ok=True)`: record the directory as existing. -/
def FS.makedirs (fs : FS) (d : String) : FS :=
  if memStr fs.dirs d then fs else { fs with files := fs.files, dirs := d :: fs.dirs }

/-- Write `content` to the file at `p` (creating or overwriting it). -/
def FS.setFile (fs : FS) (p content : String) : FS :=
  { fs with files := (p, content) :: fs.files }

/-- Model of `shutil.copy(src, dst)` for a non-directory `dst`: read the source and
write its bytes to the destination; a missing source is a raised OS error
(`none`).  Destination-side failures (for instance a missing parent
directory of `dst`) are not modelled; no claim depends on them. -/
def FS.copyFile (fs : FS) (src dst : String) : Option FS :=
  match fs.readFile src with
  | none => none
  | some content => some (fs.setFile dst content)

/-- The constant `config_filename = "config.yaml"` of the source. -/
def config_filename : String := "config.yaml"

/-- The constant `user_config_path = os.path.join(get_storage_path(), config_filename)`
of the source, the default argument of both functions. -/
def user_config_path (env : Env) : String :=
  joinPath env.storagePath config_filename

/-- The bundled default configuration template: `config.yaml` one directory
above the module (`parent_dir = os.path.dirname(here)`). -/
def default_config_path (env : Env) : String :=
  joinPath (dirname env.moduleDir) "config.yaml"

/-- The final else-branch of `get_config_path` (nothing exists anywhere):
if the candidate has a nonempty directory component that does not itself
exist, create that directory tree and keep the candidate as the target;
otherwise ensure the storage directory exists and target
`storage/candidate`; then copy the bundled default template to the
target. -/
def createConfig (env : Env) (fs : FS) (path : String) : Option (String × FS) :=
  let step :=
    if dirname path ≠ "" ∧ fs.existsPath (dirname path) = false then
      (path, fs.makedirs (dirname path))
    else
      (joinPath env.storagePath path, fs.makedirs env.storagePath)
  match (step.2).copyFile (default_config_path env) step.1 with
  | none => none
  | some fs2 => some (step.1, fs2)

/-- Model of `get_config_path(path)`: use the candidate if it exists; else
`storage/candidate` if that exists; else `./candidate` (note: the code
joins with `os.path.curdir`, i.e. `"."`) if `cwd/candidate` exists; else
create the file from the bundled template.  Returns the resolved path and
the resulting filesystem state, `none` on a raised OS error. -/
def get_config_path (env : Env) (fs : FS) (path : String) : Option (String × FS) :=
  if fs.existsPath path then some (path, fs)
  else if fs.existsPath (joinPath env.storagePath path) then
    some (joinPath env.storagePath path, fs)
  else if fs.existsPath (joinPath env.cwd path) then
    some (joinPath "." path, fs)
  else createConfig env fs path

/-- Model of `get_config(path)`: resolve (and possibly create) the config file, open
it and parse its content as YAML.  The YAML parser is an external
collaborator and is passed as the function `parse`; a `none` parse is a
raised parse error, a `none` read is a raised OS error (the path resolved
to something that is not a readable file). -/
def get_config {α : Type} (parse : String → Option α) (env : Env) (fs : FS)
    (path : String) : Option (α × FS) :=
  match get_config_path env fs path with
  | none => none
  | some (p, fs2) =>
    match fs2.readFile p with
    | none => none
    | some content =>
      match parse content with
      | none => none
      | some y => some (y, fs2)

/-- Sample environment for concrete evaluations. -/
def envW : Env :=
  { storagePath := "/home/user/storage"
    cwd := "/work"
    moduleDir := "/pkg/interpreter/terminal_interface/utils" }

/-- Sample state: only the bundled default template exists. -/
def fsTpl : FS :=
  { files := [("/pkg/interpreter/terminal_interface/config.yaml", "TPL")], dirs := [] }

/-- Sample state: a config file at an explicit absolute path. -/
def fsEtc : FS :=
  { files := [("/etc/oi.yaml", "k: v")], dirs := [] }

/-- Sample state: a config file inside the per-user storage directory. -/
def fsStor : FS :=
  { files := [("/home/user/storage/config.yaml", "x: 1")], dirs := [] }

/-! Live block base class

The Python source (base_block.py).  The `rich.live.Live` session is an
external collaborator; what the claims observe is the sequence of calls a
method makes to it, so a method run is modelled as the list of emitted
session events together with an optionally raised error.  A concrete block
variant is characterized by its override of `refresh`; for the purposes of
`end` (which only calls `self.refresh(cursor=False)` and `self.live.stop()`)
the override is abstracted to whether the call raises: an instance is a
function from the cursor flag to the optionally raised error of its
`refresh`.  The unextended base class is the instance whose `refresh` is
the base body, which always raises NotImplementedError. -/

/-- Observable events on the live rendering session. -/
inductive LiveEvent : Type
  | refreshCall (cursor : Bool)
  | liveStop
deriving DecidableEq

/-- A raised Python exception, as far as the claims observe it. -/
inductive PyError : Type
  | notImplementedError (msg : String)
deriving DecidableEq

namespace BaseBlock

/-- Body of `BaseBlock.update_from_message(self, message)`: unconditionally
`raise NotImplementedError("Subclasses must implement this method")`; no
session event is emitted. -/
def update_from_message {α : Type} (message : α) : List LiveEvent × Option PyError :=
  ([], some (PyError.notImplementedError "Subclasses must implement this method"))

/-- Body of `BaseBlock.refresh(self, cursor=True)`: unconditionally
`raise NotImplementedError("Subclasses must implement this method")`; no
session event is emitted. -/
def refresh (cursor : Bool) : List LiveEvent × Option PyError :=
  ([], some (PyError.notImplementedError "Subclasses must implement this method"))

/-- The outcome of a dynamically dispatched `self.refresh(cursor)` on the
instance `impl`: `none` means the call returned normally, `some e` that it
raised `e`.  The base class itself is the instance `baseRefresh`. -/
def baseRefresh : Bool → Option PyError :=
  fun cursor => (refresh cursor).2

/-- Body of `BaseBlock.end(self)` on an instance whose `refresh` override
behaves as `impl`: `self.refresh(cursor=False)` followed, if that call
returns, by `self.live.stop()`.  A raise inside `refresh` propagates and
the stop is never reached. -/
def end_block (impl : Bool → Option PyError) : List LiveEvent × Option PyError :=
  match impl false with
  | some e => ([LiveEvent.refreshCall false], some e)
  | none => ([LiveEvent.refreshCall false, LiveEvent.liveStop], none)

end BaseBlock

/-! Sanity evaluations of the embedding on concrete inputs -/

example : find_image_path ["/a.png"] "see /a.png here" = some "/a.png" := by decide
example : find_image_path ["/a.png"] "no path" = none := by decide
example : find_image_path ["C:img.png"] "C:\\img.png" = some "C:img.png" := by decide
example : find_image_path ["/a.Png"] "/a.Png" = none := by decide
example : find_image_path ["/a.png", "/longer/b.png"] "/a.png and /longer/b.png"
    = some "/longer/b.png" := by decide

example : dirname "/a/b.yaml" = "/a" := by decide
example : dirname "config.yaml" = "" := by decide
example : dirname "sub/cfg.yaml" = "sub" := by decide
example : dirname "/a" = "/" := by decide
example : joinPath "/st" "/abs/c.yaml" = "/abs/c.yaml" := by decide
example : joinPath "/st" "config.yaml" = "/st/config.yaml" := by decide
example : joinPath "." "config.yaml" = "./config.yaml" := by decide

example : default_config_path envW = "/pkg/interpreter/terminal_interface/config.yaml" := by
  decide

example :
    get_config_path envW
      { files := [("/pkg/interpreter/terminal_interface/config.yaml", "TPL")], dirs := [] }
      "config.yaml"
    = some ("/home/user/storage/config.yaml",
        { files := [("/home/user/storage/config.yaml", "TPL"),
                    ("/pkg/interpreter/terminal_interface/config.yaml", "TPL")],
          dirs := ["/home/user/storage"] }) := by decide

example :
    BaseBlock.end_block (fun _ => none)
    = ([LiveEvent.refreshCall false, LiveEvent.liveStop], none) := by decide
example :
    BaseBlock.end_block BaseBlock.baseRefresh
    = ([LiveEvent.refreshCall false],
       some (PyError.notImplementedError "Subclasses must implement this method")) := by
  decide

/-! Supporting lemmas -/

/-- The fold of `pickLonger` (Python `max(..., key=len)`) over `a :: xs`
returns the first element of maximal length: the list decomposes around the
result, everything strictly before it is strictly shorter, and nothing in
the list is longer. -/
theorem foldl_pickLonger_firstMax (xs : List String) : ∀ a : String,
    ∃ pre suf, a :: xs = pre ++ (xs.foldl pickLonger a) :: suf ∧
      (∀ x ∈ pre, x.length < (xs.foldl pickLonger a).length) ∧
      (∀ x ∈ a :: xs, x.length ≤ (xs.foldl pickLonger a).length) := by
  induction xs with
  | nil =>
    intro a
    refine ⟨[], [], rfl, by simp, ?_⟩
    intro x hx
    rw [List.mem_singleton] at hx
    subst hx
    exact Nat.le_refl _
  | cons y ys ih =>
    intro a
    by_cases h : a.length < y.length
    · have hfold : (y :: ys).foldl pickLonger a = ys.foldl pickLonger y := by
        simp [pickLonger, h]
      rw [hfold]
      obtain ⟨pre, suf, hdec, hpre, hle⟩ := ih y
      have hyr : y.length ≤ (ys.foldl pickLonger y).length :=
        hle y (List.mem_cons_self y ys)
      refine ⟨a :: pre, suf, ?_, ?_, ?_⟩
      · rw [List.cons_append, ← hdec]
      · intro x hx
        rcases List.mem_cons.mp hx with hxa | hxp
        · subst hxa
          exact Nat.lt_of_lt_of_le h hyr
        · exact hpre x hxp
      · intro x hx
        rcases List.mem_cons.mp hx with hxa | hx2
        · subst hxa
          exact Nat.le_of_lt (Nat.lt_of_lt_of_le h hyr)
        · exact hle x hx2
    · have hya : y.length ≤ a.length := Nat.le_of_not_lt h
      have hfold : (y :: ys).foldl pickLonger a = ys.foldl pickLonger a := by
        simp [pickLonger, h]
      rw [hfold]
      obtain ⟨pre, suf, hdec, hpre, hle⟩ := ih a
      have har : a.length ≤ (ys.foldl pickLonger a).length :=
        hle a (List.mem_cons_self a ys)
      cases pre with
      | nil =>
        simp only [List.nil_append] at hdec
        have hra : ys.foldl pickLonger a = a := (List.cons.injEq _ _ _ _ ▸ hdec).1.symm
        refine ⟨[], y :: ys, ?_, by simp, ?_⟩
        · rw [hra, List.nil_append]
        · intro x hx
          rcases List.mem_cons.mp hx with hxa | hx2
          · subst hxa; exact har
          rcases List.mem_cons.mp hx2 with hxy | hx3
          · subst hxy; exact Nat.le_trans hya har
          · exact hle x (List.mem_cons_of_mem a hx3)
      | cons p pre2 =>
        rw [List.cons_append] at hdec
        have hpa : p = a := ((List.cons.injEq _ _ _ _ ▸ hdec).1).symm
        have hys : ys = pre2 ++ ys.foldl pickLonger a :: suf :=
          (List.cons.injEq _ _ _ _ ▸ hdec).2
        have halt : a.length < (ys.foldl pickLonger a).length := by
          have := hpre p (List.mem_cons_self p pre2)
          rwa [hpa] at this
        refine ⟨a :: y :: pre2, suf, ?_, ?_, ?_⟩
        · rw [List.cons_append, List.cons_append, ← hys]
        · intro x hx
          rcases List.mem_cons.mp hx with hxa | hx2
          · subst hxa; exact halt
          rcases List.mem_cons.mp hx2 with hxy | hx3
          · subst hxy; exact Nat.lt_of_le_of_lt hya halt
          · exact hpre x (List.mem_cons_of_mem p hx3)
        · intro x hx
          rcases List.mem_cons.mp hx with hxa | hx2
          · subst hxa; exact har
          rcases List.mem_cons.mp hx2 with hxy | hx3
          · subst hxy; exact Nat.le_trans hya har
          · exact hle x (List.mem_cons_of_mem a hx3)

/-- The operation `os.makedirs` only touches directories: the files are unchanged. -/
theorem makedirs_files (fs : FS) (d : String) : (fs.makedirs d).files = fs.files := by
  unfold FS.makedirs
  by_cases h : memStr fs.dirs d = true
  · simp [h]
  · simp [h]

/-- Reading a file is unaffected by a directory creation. -/
theorem readFile_makedirs (fs : FS) (d q : String) :
    (fs.makedirs d).readFile q = fs.readFile q := by
  unfold FS.readFile
  rw [makedirs_files]

/-- Reading back the path just written returns the written content. -/
theorem readFile_setFile_self (fs : FS) (p content : String) :
    (fs.setFile p content).readFile p = some content := by
  simp [FS.setFile, FS.readFile, lookupFile]

/-- Writing one file leaves every other path unchanged. -/
theorem readFile_setFile_other (fs : FS) (p content q : String) (h : q ≠ p) :
    (fs.setFile p content).readFile q = fs.readFile q := by
  unfold FS.setFile FS.readFile
  simp only [lookupFile]
  rw [if_neg (fun hc => h hc.symm)]

/-- A path that does not exist holds no readable file. -/
theorem readFile_of_not_existsPath (fs : FS) (p : String) (h : fs.existsPath p = false) :
    fs.readFile p = none := by
  unfold FS.existsPath at h
  rcases Bool.or_eq_false_iff.mp h with ⟨h1, _⟩
  exact Option.not_isSome_iff_eq_none.mp (by simp [h1])

/-- A string with no slash has an empty `os.path.dirname`. -/
theorem dirname_no_slash (p : String) (h : ∀ c ∈ p.data, c ≠ '/') : dirname p = "" := by
  have hd : p.data.reverse.dropWhile (fun c => decide (c ≠ '/')) = [] := by
    apply List.dropWhile_eq_nil_iff.mpr
    intro x hx
    exact decide_eq_true (h x (List.mem_reverse.mp hx))
  simp only [dirname, hd, List.reverse_nil]
  simp

/-! Claims about the image path finder -/

/-- C1.  If at least one candidate (a raw regex match or a
backslash-stripped variant) exists as a path at call time, find_image_path
returns an existing candidate of maximal character length, and in
particular never returns the shorter of two existing candidates of
different lengths. -/
theorem c1_find_image_path_maximal (fs : List String) (text : String)
    (h : ∃ c ∈ imageCandidates text, memStr fs c = true) :
    ∃ r, find_image_path fs text = some r ∧ r ∈ imageCandidates text ∧
      memStr fs r = true ∧
      (∀ c ∈ imageCandidates text, memStr fs c = true → c.length ≤ r.length) ∧
      (∀ c1 c2, c1 ∈ imageCandidates text → c2 ∈ imageCandidates text →
        memStr fs c1 = true → memStr fs c2 = true →
        c1.length < c2.length → r ≠ c1) := by
  obtain ⟨c, hc, hcm⟩ := h
  have hcf : c ∈ (imageCandidates text).filter (fun m => memStr fs m) :=
    List.mem_filter.mpr ⟨hc, hcm⟩
  cases hf : (imageCandidates text).filter (fun m => memStr fs m) with
  | nil =>
    rw [hf] at hcf
    exact absurd hcf (List.not_mem_nil c)
  | cons x xs =>
    obtain ⟨pre, suf, hdec, _, hle⟩ := foldl_pickLonger_firstMax xs x
    have hmax : ∀ d ∈ imageCandidates text, memStr fs d = true →
        d.length ≤ (xs.foldl pickLonger x).length := by
      intro d hd hdm
      have : d ∈ (imageCandidates text).filter (fun m => memStr fs m) :=
        List.mem_filter.mpr ⟨hd, hdm⟩
      rw [hf] at this
      exact hle d this
    have hrmem : xs.foldl pickLonger x ∈ (imageCandidates text).filter (fun m => memStr fs m) := by
      rw [hf, hdec]
      exact List.mem_append_right pre (List.mem_cons_self _ _)
    refine ⟨xs.foldl pickLonger x, ?_, (List.mem_filter.mp hrmem).1,
      (List.mem_filter.mp hrmem).2, hmax, ?_⟩
    · simp only [find_image_path, hf]
    · intro c1 c2 h1 _ _ m2 hlt heq
      have h2r : c2.length ≤ (xs.foldl pickLonger x).length := hmax c2 ‹c2 ∈ _› m2
      rw [heq] at h2r
      exact Nat.lt_irrefl c1.length (Nat.lt_of_lt_of_le hlt h2r)

/-- C1 witness: a concrete run in which two existing candidates of
different lengths are embedded in the same text. -/
theorem c1_witness :
    (∃ c ∈ imageCandidates "/a.png and /longer/b.png", memStr ["/a.png", "/longer/b.png"] c = true) ∧
    (∃ r, find_image_path ["/a.png", "/longer/b.png"] "/a.png and /longer/b.png" = some r ∧
      r ∈ imageCandidates "/a.png and /longer/b.png" ∧
      memStr ["/a.png", "/longer/b.png"] r = true ∧
      (∀ c ∈ imageCandidates "/a.png and /longer/b.png",
        memStr ["/a.png", "/longer/b.png"] c = true → c.length ≤ r.length) ∧
      (∀ c1 c2, c1 ∈ imageCandidates "/a.png and /longer/b.png" →
        c2 ∈ imageCandidates "/a.png and /longer/b.png" →
        memStr ["/a.png", "/longer/b.png"] c1 = true →
        memStr ["/a.png", "/longer/b.png"] c2 = true →
        c1.length < c2.length → r ≠ c1)) :=
  ⟨by decide, c1_find_image_path_maximal ["/a.png", "/longer/b.png"] "/a.png and /longer/b.png"
    (by decide)⟩

/-- C9.  find_image_path is a total function of the text and the list of
existing paths (it is defined by structural recursion, so it never raises),
and it returns `none` exactly when no candidate exists at call time. -/
theorem c9_none_iff_no_existing_candidate (fs : List String) (text : String) :
    find_image_path fs text = none ↔ ∀ c ∈ imageCandidates text, memStr fs c = false := by
  constructor
  · intro h c hc
    by_contra hb
    have hm : memStr fs c = true := by
      revert hb
      cases memStr fs c <;> simp
    have hcf : c ∈ (imageCandidates text).filter (fun m => memStr fs m) :=
      List.mem_filter.mpr ⟨hc, hm⟩
    cases hf : (imageCandidates text).filter (fun m => memStr fs m) with
    | nil =>
      rw [hf] at hcf
      exact absurd hcf (List.not_mem_nil c)
    | cons x xs =>
      simp only [find_image_path, hf] at h
      exact absurd h (by simp)
  · intro h
    cases hf : (imageCandidates text).filter (fun m => memStr fs m) with
    | nil => simp only [find_image_path, hf]
    | cons x xs =>
      have hx : x ∈ (imageCandidates text).filter (fun m => memStr fs m) := by
        rw [hf]; exact List.mem_cons_self x xs
      have := List.mem_filter.mp hx
      rw [h x this.1] at this
      exact absurd this.2 (by simp)

/-- C10.  The candidate list is the raw matches in scan order followed by
their backslash-stripped variants in the same order, and the returned path
is the first element of maximal length among the existing candidates in
that order (Python `max` keeps the earlier element on ties).  Determinism
for fixed text and filesystem state holds because `find_image_path` is a
pure function of both. -/
theorem c10_first_of_maximal_length (fs : List String) (text : String) (r : String)
    (h : find_image_path fs text = some r) :
    imageCandidates text
      = rawMatches text ++ ((rawMatches text).filter (fun s => s ≠ "")).map stripBackslashes ∧
    ∃ pre suf,
      (imageCandidates text).filter (fun m => memStr fs m) = pre ++ r :: suf ∧
      (∀ x ∈ pre, x.length < r.length) ∧
      (∀ x ∈ (imageCandidates text).filter (fun m => memStr fs m), x.length ≤ r.length) := by
  refine ⟨rfl, ?_⟩
  cases hf : (imageCandidates text).filter (fun m => memStr fs m) with
  | nil =>
    simp only [find_image_path, hf] at h
    exact absurd h (by simp)
  | cons x xs =>
    simp only [find_image_path, hf] at h
    have hr : xs.foldl pickLonger x = r := by
      exact Option.some.injEq _ _ ▸ h
    obtain ⟨pre, suf, hdec, hpre, hle⟩ := foldl_pickLonger_firstMax xs x
    rw [hr] at hdec hpre hle
    exact ⟨pre, suf, hdec, hpre, hle⟩

/-! Claims about the config loader -/

/-- C4.  A candidate path that already exists is returned unchanged, with
no filesystem mutation at all: the state component of the result is the
input state itself. -/
theorem c4_existing_candidate_unchanged (env : Env) (fs : FS) (path : String)
    (h : fs.existsPath path = true) :
    get_config_path env fs path = some (path, fs) := by
  simp [get_config_path, h]

/-- C4 witness: a config file already present at the exact candidate
path. -/
theorem c4_witness :
    (fsEtc.existsPath "/etc/oi.yaml" = true) ∧
    get_config_path envW fsEtc "/etc/oi.yaml" = some ("/etc/oi.yaml", fsEtc) :=
  ⟨by decide, c4_existing_candidate_unchanged envW fsEtc "/etc/oi.yaml" (by decide)⟩

/-- C5.  The resolution order of get_config_path: the candidate itself
first; else `storage/candidate`; else the `./candidate` form when
`cwd/candidate` exists (and for a relative candidate the joined form is
literally the string `./candidate`); and the create-and-copy branch runs
exactly when none of the three locations exists. -/
theorem c5_resolution_order (env : Env) (fs : FS) (path : String) :
    (fs.existsPath path = true → get_config_path env fs path = some (path, fs)) ∧
    (fs.existsPath path = false → fs.existsPath (joinPath env.storagePath path) = true →
      get_config_path env fs path = some (joinPath env.storagePath path, fs)) ∧
    (fs.existsPath path = false → fs.existsPath (joinPath env.storagePath path) = false →
      fs.existsPath (joinPath env.cwd path) = true →
      get_config_path env fs path = some (joinPath "." path, fs) ∧
      (path.data.head? ≠ some '/' → joinPath "." path = "./" ++ path)) ∧
    (fs.existsPath path = false → fs.existsPath (joinPath env.storagePath path) = false →
      fs.existsPath (joinPath env.cwd path) = false →
      get_config_path env fs path = createConfig env fs path) := by
  refine ⟨?_, ?_, ?_, ?_⟩
  · intro h1
    simp [get_config_path, h1]
  · intro h1 h2
    simp [get_config_path, h1, h2]
  · intro h1 h2 h3
    refine ⟨by simp [get_config_path, h1, h2, h3], ?_⟩
    intro habs
    unfold joinPath
    rw [if_neg habs, if_neg (by decide), if_neg (by decide)]
    apply String.ext
    show ('.' :: ("/" ++ path).data) = ('.' :: '/' :: path.data)
    show ('.' :: ('/' :: "".data ++ path.data)) = ('.' :: '/' :: path.data)
    simp
  · intro h1 h2 h3
    simp [get_config_path, h1, h2, h3]

/-- C5 witness: the second location (`storage/candidate`) wins when the
candidate itself is absent. -/
theorem c5_witness :
    (fsStor.existsPath "config.yaml" = false) ∧
    (fsStor.existsPath (joinPath envW.storagePath "config.yaml") = true) ∧
    get_config_path envW fsStor "config.yaml"
      = some (joinPath envW.storagePath "config.yaml", fsStor) :=
  ⟨by decide, by decide,
   (c5_resolution_order envW fsStor "config.yaml").2.1 (by decide) (by decide)⟩

/-- C3.  Whenever get_config returns without raising, the path resolved by
get_config_path holds a readable file in the resulting filesystem state and
the returned value is the parsed content of exactly that file. -/
theorem c3_get_config_reads_resolved {α : Type} (parse : String → Option α)
    (env : Env) (fs : FS) (path : String) (y : α) (fs2 : FS)
    (h : get_config parse env fs path = some (y, fs2)) :
    ∃ p content, get_config_path env fs path = some (p, fs2) ∧
      fs2.readFile p = some content ∧ parse content = some y := by
  unfold get_config at h
  cases hg : get_config_path env fs path with
  | none =>
    rw [hg] at h
    exact absurd h (by simp)
  | some pr =>
    obtain ⟨p, fs3⟩ := pr
    rw [hg] at h
    dsimp only at h
    cases hr : fs3.readFile p with
    | none =>
      rw [hr] at h
      exact absurd h (by simp)
    | some content =>
      rw [hr] at h
      dsimp only at h
      cases hp : parse content with
      | none =>
        rw [hp] at h
        exact absurd h (by simp)
      | some y2 =>
        rw [hp] at h
        dsimp only at h
        have hpair : (y2, fs3) = (y, fs2) := Option.some.inj h
        have hy2 : y2 = y := congrArg Prod.fst hpair
        have hfs3 : fs3 = fs2 := congrArg Prod.snd hpair
        subst hy2
        subst hfs3
        exact ⟨p, content, rfl, hr, hp⟩

/-- C3 witness: a concrete successful run with the identity parser. -/
theorem c3_witness :
    (get_config (fun s => some s) envW fsEtc "/etc/oi.yaml" = some ("k: v", fsEtc)) ∧
    (∃ p content,
      get_config_path envW fsEtc "/etc/oi.yaml" = some (p, fsEtc) ∧
      fsEtc.readFile p = some content ∧
      (fun s => some s) content = some "k: v") :=
  ⟨by decide,
   c3_get_config_reads_resolved (fun s => some s) envW fsEtc "/etc/oi.yaml" "k: v" fsEtc
     (by decide)⟩

/-- C2 counterexample.  A candidate with a directory component that does
not exist satisfies all three non-existence hypotheses of the claim, yet
the create branch puts the single new file at the candidate itself
("sub/cfg.yaml"), not at the per-user storage location, where nothing is
created. -/
theorem c2_counterexample :
    (fsTpl.existsPath "sub/cfg.yaml" = false ∧
     fsTpl.existsPath (joinPath envW.storagePath "sub/cfg.yaml") = false ∧
     fsTpl.existsPath (joinPath envW.cwd "sub/cfg.yaml") = false) ∧
    (get_config_path envW fsTpl "sub/cfg.yaml").map Prod.fst = some "sub/cfg.yaml" ∧
    "sub/cfg.yaml" ≠ joinPath envW.storagePath "sub/cfg.yaml" ∧
    (get_config_path envW fsTpl "sub/cfg.yaml").map
        (fun pr => pr.2.readFile (joinPath envW.storagePath "sub/cfg.yaml"))
      = some none := by
  decide

/-- C2 (amended).  For a fresh state (none of the three checked locations
exists) and a candidate that is a bare nonempty file name (no slash),
get_config_path creates exactly one new file, at the per-user storage
location `storage/candidate`, whose content is byte-identical to the
bundled default template one directory above the module; every other path
reads as before. -/
theorem c2_fresh_bare_filename (env : Env) (fs : FS) (path tpl : String)
    (hne : path ≠ "")
    (hbare : ∀ c ∈ path.data, c ≠ '/')
    (h1 : fs.existsPath path = false)
    (h2 : fs.existsPath (joinPath env.storagePath path) = false)
    (h3 : fs.existsPath (joinPath env.cwd path) = false)
    (htpl : fs.readFile (default_config_path env) = some tpl) :
    get_config_path env fs path
      = some (joinPath env.storagePath path,
          (fs.makedirs env.storagePath).setFile (joinPath env.storagePath path) tpl) ∧
    ((fs.makedirs env.storagePath).setFile (joinPath env.storagePath path) tpl).readFile
        (joinPath env.storagePath path) = some tpl ∧
    fs.readFile (joinPath env.storagePath path) = none ∧
    (∀ q, q ≠ joinPath env.storagePath path →
      ((fs.makedirs env.storagePath).setFile (joinPath env.storagePath path) tpl).readFile q
        = fs.readFile q) ∧
    ((fs.makedirs env.storagePath).setFile (joinPath env.storagePath path) tpl).files
      = (joinPath env.storagePath path, tpl) :: fs.files := by
  have hd : dirname path = "" := dirname_no_slash path hbare
  have hcreate : createConfig env fs path
      = some (joinPath env.storagePath path,
          (fs.makedirs env.storagePath).setFile (joinPath env.storagePath path) tpl) := by
    unfold createConfig
    rw [hd]
    simp only [ne_eq, not_true_eq_false, false_and, if_false]
    unfold FS.copyFile
    rw [readFile_makedirs, htpl]
  refine ⟨?_, ?_, ?_, ?_, ?_⟩
  · have hgcp : get_config_path env fs path = createConfig env fs path := by
      simp [get_config_path, h1, h2, h3]
    rw [hgcp, hcreate]
  · exact readFile_setFile_self _ _ _
  · exact readFile_of_not_existsPath fs _ h2
  · intro q hq
    rw [readFile_setFile_other _ _ _ _ hq, readFile_makedirs]
  · show (joinPath env.storagePath path, tpl) :: (fs.makedirs env.storagePath).files
      = (joinPath env.storagePath path, tpl) :: fs.files
    rw [makedirs_files]

/-- C2 witness: a concrete fresh run with the bare candidate
"config.yaml". -/
theorem c2_witness :
    ("config.yaml" ≠ "" ∧
     (∀ c ∈ "config.yaml".data, c ≠ '/') ∧
     fsTpl.existsPath "config.yaml" = false ∧
     fsTpl.readFile (default_config_path envW) = some "TPL") ∧
    get_config_path envW fsTpl "config.yaml"
      = some (joinPath envW.storagePath "config.yaml",
          (fsTpl.makedirs envW.storagePath).setFile
            (joinPath envW.storagePath "config.yaml") "TPL") :=
  ⟨⟨by decide, by decide, by decide, by decide⟩,
   (c2_fresh_bare_filename envW fsTpl "config.yaml" "TPL" (by decide) (by decide) (by decide)
     (by decide) (by decide) (by decide)).1⟩

/-! Claims about the live block base class -/

/-- C7.  Calling update_from_message (with any message) or refresh (with
any cursor flag) on the unextended base class always raises
NotImplementedError at once: the outcome carries the error, no session
event is emitted, and neither call ever returns normally. -/
theorem c7_abstract_methods_raise (α : Type) (message : α) (cursor : Bool) :
    BaseBlock.update_from_message message
      = ([], some (PyError.notImplementedError "Subclasses must implement this method")) ∧
    BaseBlock.refresh cursor
      = ([], some (PyError.notImplementedError "Subclasses must implement this method")) ∧
    (BaseBlock.update_from_message message).2 ≠ none ∧
    (BaseBlock.refresh cursor).2 ≠ none :=
  ⟨rfl, rfl, by simp [BaseBlock.update_from_message], by simp [BaseBlock.refresh]⟩

/-- C6 counterexample.  On an unextended BaseBlock instance (whose refresh
is the base body), end() raises NotImplementedError inside the refresh call
and the live session is never stopped, so end() does not perform the two
claimed steps on every BaseBlock instance. -/
theorem c6_counterexample :
    BaseBlock.end_block BaseBlock.baseRefresh
      = ([LiveEvent.refreshCall false],
         some (PyError.notImplementedError "Subclasses must implement this method")) ∧
    BaseBlock.end_block BaseBlock.baseRefresh
      ≠ ([LiveEvent.refreshCall false, LiveEvent.liveStop], none) ∧
    LiveEvent.liveStop ∉ (BaseBlock.end_block BaseBlock.baseRefresh).1 := by
  decide

/-- C6 (amended).  On every BaseBlock instance whose refresh(cursor=False)
call returns normally (in particular every properly implemented concrete
variant), end() performs exactly two steps in order: the refresh call with
cursor hidden, then the session stop, with no further event and no raised
error. -/
theorem c6_end_refresh_then_stop (impl : Bool → Option PyError) (h : impl false = none) :
    BaseBlock.end_block impl
      = ([LiveEvent.refreshCall false, LiveEvent.liveStop], none) := by
  unfold BaseBlock.end_block
  rw [h]

/-- C6 witness: an instance with a normally returning refresh override. -/
theorem c6_witness :
    ((fun _ => (none : Option PyError)) false = none) ∧
    BaseBlock.end_block (fun _ => none)
      = ([LiveEvent.refreshCall false, LiveEvent.liveStop], none) :=
  ⟨rfl, c6_end_refresh_then_stop (fun _ => none) rfl⟩

/-! Claims about the recognized extension spellings -/

/-- Each of the six literal extension alternatives matches itself (followed
by anything). -/
theorem matchExt_self (e : List Char) (he : e ∈ extAlts) (r : List Char) :
    matchExt (e ++ r) = some (e, r) := by
  fin_cases he <;> rfl

/-- The reluctant tail consumes a body free of dots, colons and newlines
followed by a dot and one of the six extension spellings, to the end of the
input. -/
theorem lazyDotExt_clean (body e : List Char) (he : e ∈ extAlts)
    (hb : ∀ c ∈ body, c ≠ '.' ∧ c ≠ ':' ∧ c ≠ '\n') :
    lazyDotExt (body ++ '.' :: e) = some (body ++ '.' :: e, []) := by
  induction body with
  | nil =>
    have hm : matchExt e = some (e, []) := by
      have h0 := matchExt_self e he []
      rwa [List.append_nil] at h0
    simp [lazyDotExt, hm]
  | cons c body ih =>
    have hc := hb c (List.mem_cons_self c body)
    have hrec := ih (fun x hx => hb x (List.mem_cons_of_mem c hx))
    simp [lazyDotExt, hc.1, hc.2.1, hc.2.2, hrec]

/-- A full Unix-style path with a clean body is a match at its start,
consuming the whole input. -/
theorem matchAt_full_unix (body e : List Char) (he : e ∈ extAlts)
    (hb : ∀ c ∈ body, c ≠ '.' ∧ c ≠ ':' ∧ c ≠ '\n') :
    matchAt ('/' :: (body ++ '.' :: e)) = some ('/' :: (body ++ '.' :: e), []) := by
  simp [matchAt, lazyDotExt_clean body e he hb]

/-- A full Windows-style path (drive letter, colon, backslash) with a clean
body is a match at its start, consuming the whole input. -/
theorem matchAt_full_win (d : Char) (body e : List Char) (hd : d.isAlpha = true)
    (he : e ∈ extAlts) (hb : ∀ c ∈ body, c ≠ '.' ∧ c ≠ ':' ∧ c ≠ '\n') :
    matchAt (d :: ':' :: '\\' :: (body ++ '.' :: e))
      = some (d :: ':' :: '\\' :: (body ++ '.' :: e), []) := by
  have hd2 : ¬ (d = '/') := by
    intro hcontra
    rw [hcontra] at hd
    exact absurd hd (by decide)
  simp [matchAt, hd2, hd, lazyDotExt_clean body e he hb]

/-- The scanner emits nothing on an empty input, whatever the fuel. -/
theorem findMatchesAux_nil (f : Nat) : findMatchesAux f [] = [] := by
  cases f <;> rfl

/-- Unfolding equation of the scanner for positive fuel on a nonempty
input. -/
theorem findMatchesAux_succ_cons (fuel : Nat) (c : Char) (cs : List Char) :
    findMatchesAux (fuel + 1) (c :: cs)
      = match matchAt (c :: cs) with
        | some (m, r) => m :: findMatchesAux fuel r
        | none => findMatchesAux fuel cs := rfl

/-- The scan of a text consisting of exactly one clean Unix-style path
yields that path as its only match. -/
theorem findMatches_single_unix (body e : List Char) (he : e ∈ extAlts)
    (hb : ∀ c ∈ body, c ≠ '.' ∧ c ≠ ':' ∧ c ≠ '\n') :
    findMatches ('/' :: (body ++ '.' :: e)) = ['/' :: (body ++ '.' :: e)] := by
  unfold findMatches
  rw [List.length_cons, findMatchesAux_succ_cons, matchAt_full_unix body e he hb]
  dsimp only
  rw [findMatchesAux_nil]

/-- The scan of a text consisting of exactly one clean Windows-style path
yields that path as its only match. -/
theorem findMatches_single_win (d : Char) (body e : List Char) (hd : d.isAlpha = true)
    (he : e ∈ extAlts) (hb : ∀ c ∈ body, c ≠ '.' ∧ c ≠ ':' ∧ c ≠ '\n') :
    findMatches (d :: ':' :: '\\' :: (body ++ '.' :: e))
      = [d :: ':' :: '\\' :: (body ++ '.' :: e)] := by
  unfold findMatches
  rw [List.length_cons, findMatchesAux_succ_cons, matchAt_full_win d body e hd he hb]
  dsimp only
  rw [findMatchesAux_nil]

/-- C8 (amended).  The scan recognizes exactly the six explicit extension
spellings png, jpg, jpeg, PNG, JPG, JPEG (all-lowercase and all-uppercase,
not every mixed casing): for each of the six spellings, a Windows-style and
a Unix-style absolute path ending in that extension (with a body free of
dots, colons and newlines) is produced as a candidate when it is scanned. -/
theorem c8_extension_spellings (d : Char) (body e : List Char) (hd : d.isAlpha = true)
    (he : e ∈ extAlts) (hb : ∀ c ∈ body, c ≠ '.' ∧ c ≠ ':' ∧ c ≠ '\n') :
    String.mk (d :: ':' :: '\\' :: (body ++ '.' :: e))
      ∈ imageCandidates (String.mk (d :: ':' :: '\\' :: (body ++ '.' :: e))) ∧
    String.mk ('/' :: (body ++ '.' :: e))
      ∈ imageCandidates (String.mk ('/' :: (body ++ '.' :: e))) := by
  constructor
  · unfold imageCandidates
    apply List.mem_append_left
    unfold rawMatches
    rw [show (String.mk (d :: ':' :: '\\' :: (body ++ '.' :: e))).data
          = d :: ':' :: '\\' :: (body ++ '.' :: e) from rfl,
        findMatches_single_win d body e hd he hb]
    have hne : String.mk (d :: ':' :: '\\' :: (body ++ '.' :: e)) ≠ "" := by
      intro hcontra
      have hdata : (d :: ':' :: '\\' :: (body ++ '.' :: e)) = [] :=
        congrArg String.data hcontra
      exact absurd hdata (by simp)
    simp [hne]
  · unfold imageCandidates
    apply List.mem_append_left
    unfold rawMatches
    rw [show (String.mk ('/' :: (body ++ '.' :: e))).data = '/' :: (body ++ '.' :: e) from rfl,
        findMatches_single_unix body e he hb]
    have hne : String.mk ('/' :: (body ++ '.' :: e)) ≠ "" := by
      intro hcontra
      have hdata : ('/' :: (body ++ '.' :: e)) = [] := congrArg String.data hcontra
      exact absurd hdata (by simp)
    simp [hne]

/-- C8 counterexample.  The mixed casing ".Png" of the extension ".png" is
not recognized: the path-shaped text "/a.Png" yields no candidate at all,
and find_image_path misses it even when it exists on the filesystem. -/
theorem c8_counterexample :
    imageCandidates "/a.Png" = [] ∧ find_image_path ["/a.Png"] "/a.Png" = none := by
  decide

/-- C8 witness: the lowercase spelling on a concrete drive letter and
body. -/
theorem c8_witness :
    (('C' : Char).isAlpha = true ∧ ['p', 'n', 'g'] ∈ extAlts ∧
      (∀ c ∈ ['i', 'm', 'g'], c ≠ '.' ∧ c ≠ ':' ∧ c ≠ '\n')) ∧
    (String.mk ('C' :: ':' :: '\\' :: (['i', 'm', 'g'] ++ '.' :: ['p', 'n', 'g']))
      ∈ imageCandidates
          (String.mk ('C' :: ':' :: '\\' :: (['i', 'm', 'g'] ++ '.' :: ['p', 'n', 'g']))) ∧
     String.mk ('/' :: (['i', 'm', 'g'] ++ '.' :: ['p', 'n', 'g']))
      ∈ imageCandidates (String.mk ('/' :: (['i', 'm', 'g'] ++ '.' :: ['p', 'n', 'g'])))) :=
  ⟨⟨by decide, by decide, by decide⟩,
   c8_extension_spellings 'C' ['i', 'm', 'g'] ['p', 'n', 'g'] (by decide) (by decide)
     (by decide)⟩

/-- C10 witness: two existing candidates tie at the maximal length and the
earlier one in scan order is returned. -/
theorem c10_witness :
    find_image_path ["/a.png", "/b.png"] "/a.png /b.png" = some "/a.png" ∧
    (imageCandidates "/a.png /b.png"
      = rawMatches "/a.png /b.png"
        ++ ((rawMatches "/a.png /b.png").filter (fun s => s ≠ "")).map stripBackslashes ∧
    ∃ pre suf,
      (imageCandidates "/a.png /b.png").filter (fun m => memStr ["/a.png", "/b.png"] m)
        = pre ++ "/a.png" :: suf ∧
      (∀ x ∈ pre, x.length < "/a.png".length) ∧
      (∀ x ∈ (imageCandidates "/a.png /b.png").filter (fun m => memStr ["/a.png", "/b.png"] m),
        x.length ≤ "/a.png".length)) :=
  ⟨by decide, c10_first_of_maximal_length ["/a.png", "/b.png"] "/a.png /b.png" "/a.png"
    (by decide)⟩
